import Mathlib

/-!
Verification of the TFRecord-style binary record codec and its callers in the
VoTT repository.  Byte buffers are modelled as `List Nat` (each element one
byte), machine integers as `Nat`/`Int` with explicit `% 2 ^ w` where overflow
matters.  The codec components (checksum, feature/example codec, record
framer, builder, reader) are not present in the provided sources — only their
callers (`HtmlFileReader`) and tests are — so those components are modelled
from the specification and marked as such; the caller-level code
(`HtmlFileReader.readAssetAttributes`, `readTFRecordAttributes`,
`CanvasHelpers`) is translated directly from the source files.
-/

/-- Little-endian encoding of `n` into exactly `w` bytes (truncating above
`256 ^ w`).  Modelled from the spec: "little-endian throughout". -/
def natToLE : Nat → Nat → List Nat
  | 0, _ => []
  | w + 1, n => n % 256 :: natToLE w (n / 256)

/-- Little-endian decoding of a byte list into a natural number. -/
def leToNat : List Nat → Nat
  | [] => 0
  | b :: bs => b + 256 * leToNat bs

/-- Modelled from the spec: one bit step of the (reflected, polynomial
`0xedb88320`) CRC-32 computation; the concrete CRC-32 routine is part of the
checksum helper module that is absent from the provided sources. -/
def crcBit (c : Nat) : Nat :=
  if c % 2 = 1 then (c / 2) ^^^ 0xedb88320 else c / 2

/-- `k` iterated CRC bit steps. -/
def crcBits : Nat → Nat → Nat
  | 0, c => c
  | k + 1, c => crcBits k (crcBit c)

/-- Modelled from the spec: folds one input byte into the running CRC. -/
def crcByte (c b : Nat) : Nat := crcBits 8 (c ^^^ b % 256)

/-- Modelled from the spec: running CRC over a byte list. -/
def crc32Aux : Nat → List Nat → Nat
  | c, [] => c
  | c, b :: bs => crc32Aux (crcByte c b) bs

/-- Modelled from the spec: "computes CRC-32 over the bytes". -/
def crc32 (bs : List Nat) : Nat := crc32Aux 0xffffffff bs ^^^ 0xffffffff

/-- The fixed TFRecord masking constant. -/
def maskDelta : Nat := 0xa282ead8

/-- Modelled from the spec: "applies the standard TFRecord masking transform —
rotate the raw CRC by 15 bits and add a fixed constant, modulo 2^32". -/
def maskCrc (c : Nat) : Nat :=
  ((c >>> 15 ||| c <<< 17 % 2 ^ 32) + maskDelta) % 2 ^ 32

/-- Modelled from the spec: CRC-32 followed by the masking transform. -/
def maskedCrc (bs : List Nat) : Nat := maskCrc (crc32 bs)

/-- Modelled from the spec: the closed enumeration of feature types. -/
inductive FeatureType where
  | int64
  | float
  | binary
  deriving DecidableEq

/-- Modelled from the spec: tagged union of feature values.  `Int64` values
are signed 64-bit integers; `Float` values are stored by their 32-bit
IEEE-754 bit patterns (as naturals below `2 ^ 32`); `Binary` is a raw byte
payload. -/
inductive FeatureValue where
  | int64 (xs : List Int)
  | float (xs : List Nat)
  | binary (bs : List Nat)
  deriving DecidableEq

/-- The type tag carried by a feature value. -/
def FeatureValue.ftype : FeatureValue → FeatureType
  | .int64 _ => .int64
  | .float _ => .float
  | .binary _ => .binary

/-- Modelled from the spec: the one-byte wire tag
(`0 = Int64, 1 = Float, 2 = Binary`). -/
def typeTag : FeatureType → Nat
  | .int64 => 0
  | .float => 1
  | .binary => 2

/-- Inverse of `typeTag`; an unknown tag yields `none`
(`UnsupportedFeatureType`). -/
def tagOfNat (n : Nat) : Option FeatureType :=
  if n = 0 then some .int64
  else if n = 1 then some .float
  else if n = 2 then some .binary
  else none

/-- Two's-complement 64-bit pattern of a signed integer. -/
def int64ToNat (x : Int) : Nat := (x % (2 ^ 64 : Int)).toNat

/-- Signed interpretation of a 64-bit pattern. -/
def natToInt64 (n : Nat) : Int :=
  if n < 2 ^ 63 then (n : Int) else (n : Int) - 2 ^ 64

/-- Modelled from the spec: a named, typed feature. -/
structure Feature where
  name : List Nat
  value : FeatureValue
  deriving DecidableEq

/-- Concatenation of byte lists. -/
def bytesConcat : List (List Nat) → List Nat
  | [] => []
  | l :: ls => l ++ bytesConcat ls

/-- Modelled from the spec: `FeatureCodec.encode` — a 4-byte count followed by
fixed-width little-endian elements (Int64: 8 bytes, Float: 4 bytes), or a
4-byte length followed by the raw bytes for Binary. -/
def encodeValue : FeatureValue → List Nat
  | .int64 xs => natToLE 4 xs.length ++ bytesConcat (xs.map fun x => natToLE 8 (int64ToNat x))
  | .float xs => natToLE 4 xs.length ++ bytesConcat (xs.map fun x => natToLE 4 x)
  | .binary bs => natToLE 4 bs.length ++ bs

/-- Reads a `w`-byte little-endian number; fails if fewer than `w` bytes
remain. -/
def readLE (w : Nat) (bs : List Nat) : Option (Nat × List Nat) :=
  if w ≤ bs.length then some (leToNat (bs.take w), bs.drop w) else none

/-- Reads a raw chunk of `k` bytes; fails if fewer than `k` bytes remain. -/
def readChunk (k : Nat) (bs : List Nat) : Option (List Nat × List Nat) :=
  if k ≤ bs.length then some (bs.take k, bs.drop k) else none

/-- Decodes `k` consecutive 8-byte little-endian signed integers. -/
def decodeInt64s : Nat → List Nat → Option (List Int × List Nat)
  | 0, bs => some ([], bs)
  | k + 1, bs => do
    let (n, bs1) ← readLE 8 bs
    let (xs, bs2) ← decodeInt64s k bs1
    some (natToInt64 n :: xs, bs2)

/-- Decodes `k` consecutive 4-byte little-endian float bit patterns. -/
def decodeFloats : Nat → List Nat → Option (List Nat × List Nat)
  | 0, bs => some ([], bs)
  | k + 1, bs => do
    let (n, bs1) ← readLE 4 bs
    let (xs, bs2) ← decodeFloats k bs1
    some (n :: xs, bs2)

/-- Modelled from the spec: `FeatureCodec.decode` — the inverse of
`encodeValue`; fails (`MalformedFeature`) when the declared count or length
does not fit the remaining byte span. -/
def decodeValue (t : FeatureType) (bs : List Nat) : Option (FeatureValue × List Nat) :=
  match t with
  | .int64 => do
    let (cnt, bs1) ← readLE 4 bs
    let (xs, bs2) ← decodeInt64s cnt bs1
    some (.int64 xs, bs2)
  | .float => do
    let (cnt, bs1) ← readLE 4 bs
    let (xs, bs2) ← decodeFloats cnt bs1
    some (.float xs, bs2)
  | .binary => do
    let (len, bs1) ← readLE 4 bs
    let (chunk, bs2) ← readChunk len bs1
    some (.binary chunk, bs2)

/-- Modelled from the spec: per-feature layout — 2-byte name length, name
bytes, 1-byte type tag, then the encoded value. -/
def encodeFeature (f : Feature) : List Nat :=
  natToLE 2 f.name.length ++ f.name ++ natToLE 1 (typeTag f.value.ftype) ++ encodeValue f.value

/-- Modelled from the spec: inverse of `encodeFeature`. -/
def decodeFeature (bs : List Nat) : Option (Feature × List Nat) := do
  let (nameLen, bs1) ← readLE 2 bs
  let (name, bs2) ← readChunk nameLen bs1
  let (tag, bs3) ← readLE 1 bs2
  let t ← tagOfNat tag
  let (v, bs4) ← decodeValue t bs3
  some (⟨name, v⟩, bs4)

/-- Decodes `k` consecutive features. -/
def decodeFeatures : Nat → List Nat → Option (List Feature × List Nat)
  | 0, bs => some ([], bs)
  | k + 1, bs => do
    let (f, bs1) ← decodeFeature bs
    let (fs, bs2) ← decodeFeatures k bs1
    some (f :: fs, bs2)

/-- Modelled from the spec: `ExampleCodec.encode` — a 4-byte feature count
followed by each feature in insertion order. -/
def encodeExample (e : List Feature) : List Nat :=
  natToLE 4 e.length ++ bytesConcat (e.map encodeFeature)

/-- Modelled from the spec: `ExampleCodec.decode` with explicit remainder. -/
def decodeExampleRem (bs : List Nat) : Option (List Feature × List Nat) := do
  let (cnt, bs1) ← readLE 4 bs
  decodeFeatures cnt bs1

/-- Modelled from the spec: `ExampleCodec.decode`. -/
def decodeExample (bs : List Nat) : Option (List Feature) :=
  match decodeExampleRem bs with
  | some (fs, _) => some fs
  | none => none

/-- Shape constraints satisfied by every value a JavaScript TFRecord builder
can produce: element counts fit the 4-byte count field, Int64 elements fit in
64 signed bits, Float bit patterns in 32 bits. -/
def FeatureValue.wf : FeatureValue → Prop
  | .int64 xs => xs.length < 2 ^ 32 ∧ ∀ x ∈ xs, -(2 ^ 63) ≤ x ∧ x < 2 ^ 63
  | .float xs => xs.length < 2 ^ 32 ∧ ∀ x ∈ xs, x < 2 ^ 32
  | .binary bs => bs.length < 2 ^ 32

/-- A feature whose name fits the 2-byte name-length field and whose value is
well formed. -/
def Feature.wf (f : Feature) : Prop := f.name.length < 2 ^ 16 ∧ f.value.wf

/-- An example whose feature count fits the 4-byte count field and whose
features are all well formed. -/
def exampleWF (e : List Feature) : Prop := e.length < 2 ^ 32 ∧ ∀ f ∈ e, f.wf

/-- Modelled from the spec: `RecordFramer.frame` — 8-byte little-endian
length, 4-byte masked CRC of the length bytes, payload, 4-byte masked CRC of
the payload. -/
def frame (p : List Nat) : List Nat :=
  natToLE 8 p.length ++ natToLE 4 (maskedCrc (natToLE 8 p.length)) ++ p ++
    natToLE 4 (maskedCrc p)

/-- Modelled from the spec: `RecordFramer.frameAll` / `buildTFRecords` —
concatenation of the frames of each payload in order. -/
def frameAll (ps : List (List Nat)) : List Nat := bytesConcat (ps.map frame)

/-- Validates the frame at the head of `bs`: checks that the length field,
its checksum, the payload run, and the payload checksum are all intact, and
returns the payload length.  `none` corresponds to `CorruptRecord`. -/
def headFrame (bs : List Nat) : Option Nat :=
  if 12 ≤ bs.length then
    let lenBytes := bs.take 8
    let len := leToNat lenBytes
    if leToNat ((bs.drop 8).take 4) = maskedCrc lenBytes then
      if 16 + len ≤ bs.length then
        if leToNat ((bs.drop (12 + len)).take 4) = maskedCrc ((bs.drop 12).take len) then
          some len
        else none
      else none
    else none
  else none

/-- Outcome of indexing a record stream: the entry list (payload offset and
length per record) together with the reader state it induces — `ready` on a
clean end-of-stream, `faulted` when a corrupt frame stopped the scan. -/
inductive IndexResult where
  | ready (entries : List (Nat × Nat))
  | faulted (entries : List (Nat × Nat))
  deriving DecidableEq

/-- Prepends an entry to the index while preserving the terminal state. -/
def IndexResult.push (e : Nat × Nat) : IndexResult → IndexResult
  | .ready es => .ready (e :: es)
  | .faulted es => .faulted (e :: es)

/-- Modelled from the spec: `RecordFramer.index` — scans from the cursor,
validating both checksums of each frame, recording `(payloadOffset, length)`
entries, stopping successfully at exact end-of-stream and fatally at the
first corrupt frame.  `fuel` bounds the recursion and is at least the number
of remaining bytes at every call. -/
def indexAux : Nat → List Nat → Nat → IndexResult
  | _, [], _ => .ready []
  | 0, _ :: _, _ => .faulted []
  | fuel + 1, b :: bs, off =>
    match headFrame (b :: bs) with
    | none => .faulted []
    | some len =>
      ((indexAux fuel ((b :: bs).drop (16 + len)) (off + 16 + len)).push (off + 12, len))

/-- Modelled from the spec: indexes a whole record stream from offset 0. -/
def indexRecords (bs : List Nat) : IndexResult := indexAux bs.length bs 0

/-- The entries held by an index result, ready or faulted. -/
def recordEntries : IndexResult → List (Nat × Nat)
  | .ready es => es
  | .faulted es => es

/-- Modelled from the spec: a `TFRecordsReader` owns one immutable buffer and
the index derived from it once at construction. -/
structure TFRecordsReader where
  buffer : List Nat
  result : IndexResult
  deriving DecidableEq

/-- Reader construction: takes the complete byte buffer and indexes it. -/
def mkReader (bs : List Nat) : TFRecordsReader := ⟨bs, indexRecords bs⟩

/-- Modelled from the spec: number of successfully indexed records. -/
def recordCount (r : TFRecordsReader) : Nat := (recordEntries r.result).length

/-- Errors of the codec, as named by the spec. -/
inductive TFError where
  | typeMismatch
  | malformedFeature
  | malformedExample
  | corruptRecord
  | featureNotFound
  | indexOutOfRange
  | unsupportedFeatureType
  deriving DecidableEq

/-- Looks a feature up by name in a decoded Example and compares the stored
type tag with the requested type: absence is `FeatureNotFound`, a tag
disagreement is `TypeMismatch`, and only agreement returns the value. -/
def lookupResult (feats : List Feature) (name : List Nat) (t : FeatureType) :
    Except TFError FeatureValue :=
  match feats.find? fun f => f.name == name with
  | none => .error .featureNotFound
  | some f => if f.value.ftype = t then .ok f.value else .error .typeMismatch

/-- Modelled from the spec: `TFRecordsReader.getFeature` — bounds-check the
record index, decode the record's Example, look the feature up by name,
compare the stored tag with the requested type, and only then materialize the
value. -/
def getFeature (r : TFRecordsReader) (i : Nat) (name : List Nat) (t : FeatureType) :
    Except TFError FeatureValue :=
  match (recordEntries r.result)[i]? with
  | none => .error .indexOutOfRange
  | some (off, len) =>
    match decodeExample ((r.buffer.drop off).take len) with
    | none => .error .malformedExample
    | some feats => lookupResult feats name t

/-- Modelled from the spec: the mutable accumulator of `TFRecordsBuilder`. -/
structure TFRecordsBuilder where
  features : List Feature
  deriving DecidableEq

/-- Replaces the feature with the same name, or appends (last write wins,
insertion order preserved). -/
def replaceFeature : List Feature → Feature → List Feature
  | [], f => [f]
  | g :: gs, f => if g.name == f.name then f :: gs else g :: replaceFeature gs f

/-- Modelled from the spec: `TFRecordsBuilder.addFeature` — validates the
value's shape against the declared type, failing with `TypeMismatch` and
leaving the accumulator unchanged; on success appends or replaces by name.
Returned as the post-call accumulator paired with the reported error. -/
def addFeature (b : TFRecordsBuilder) (name : List Nat) (t : FeatureType)
    (v : FeatureValue) : TFRecordsBuilder × Option TFError :=
  if v.ftype = t then (⟨replaceFeature b.features ⟨name, v⟩⟩, none)
  else (b, some .typeMismatch)

/-- Modelled from the spec: `TFRecordsBuilder.build` — encodes the current
accumulator snapshot without clearing it. -/
def build (b : TFRecordsBuilder) : List Nat := encodeExample b.features

/-- Modelled from the spec: `TFRecordsBuilder.buildTFRecords` — frames a batch
of built example payloads into one record stream. -/
def buildTFRecords (ps : List (List Nat)) : List Nat := frameAll ps

/-- The expected index entries for a stream of framed payloads starting at
`off`: each record's payload starts 12 bytes into its frame and each frame
occupies `16 + length` bytes. -/
def goodEntries : List (List Nat) → Nat → List (Nat × Nat)
  | [], _ => []
  | p :: ps, off => (off + 12, p.length) :: goodEntries ps (off + 16 + p.length)

/-- Byte view of an ASCII feature-name string. -/
def strBytes (s : String) : List Nat := s.data.map Char.toNat

/-- Asset types of `applicationState`, as used by `HtmlFileReader` and the
asset service. -/
inductive AssetType where
  | image
  | video
  | tfrecord
  | videoFrame
  | unknown
  deriving DecidableEq

/-- The attribute record produced by `HtmlFileReader.readAssetAttributes`. -/
structure AssetAttributes where
  width : Nat
  height : Nat
  duration : Option Nat
  deriving DecidableEq

/-- `HtmlFileReader.readAssetAttributes` (src/unnamed/part_000, lines 42-56):
switches on the asset type, delegating to the image, video or TFRecord
attribute reader, and throws `Asset not supported` for every other type.  The
three readers are passed as oracles standing for the byte-touching DOM/fetch
operations. -/
def readAssetAttributes (t : AssetType)
    (imageAttrs videoAttrs tfrecordAttrs : Except String AssetAttributes) :
    Except String AssetAttributes :=
  match t with
  | .image => imageAttrs
  | .video => videoAttrs
  | .tfrecord => tfrecordAttrs
  | _ => .error ("Asset not supported")

/-- The body of `HtmlFileReader.readTFRecordAttributes` (src/unnamed/part_000,
lines 124-134) parameterized by the reader's `getFeature` operation `g`: it
asks for `image/width` and `image/height`, both at record index 0 and as
`Int64`, and returns them as the width/height pair. -/
def readTFRecordAttributesWith
    (g : Nat → List Nat → FeatureType → Except TFError FeatureValue) :
    Except TFError (FeatureValue × FeatureValue) := do
  let width ← g 0 (strBytes ("image/width")) .int64
  let height ← g 0 (strBytes ("image/height")) .int64
  pure (width, height)

/-- `HtmlFileReader.readTFRecordAttributes`: downloads the complete byte
array (`fetched`), constructs one `TFRecordsReader` over it, and reads the
two dimension features through it. -/
def readTFRecordAttributes (fetched : List Nat) :
    Except TFError (FeatureValue × FeatureValue) :=
  readTFRecordAttributesWith (getFeature (mkReader fetched))

/-- Region types of `applicationState` used by `CanvasHelpers`. -/
inductive RegionType where
  | rectangle
  | polygon
  | point
  | polyline
  deriving DecidableEq

/-- A tag (name and color) attached to a region. -/
structure ITag where
  name : String
  color : String
  deriving DecidableEq

/-- A 2-D point of `applicationState`. -/
structure IPoint where
  x : Int
  y : Int
  deriving DecidableEq

/-- A region bounding box of `applicationState`. -/
structure IBoundingBox where
  left : Int
  top : Int
  width : Int
  height : Int
  deriving DecidableEq

/-- A canvas region of `applicationState` (field `rtype` embeds the source's
`type` field). -/
structure IRegion where
  id : String
  rtype : RegionType
  tags : List ITag
  points : List IPoint
  boundingBox : IBoundingBox
  deriving DecidableEq

/-- `CanvasHelpers.getTransformDiff` (src/unnamed/part_001, lines 96-101):
ignores both arguments and returns the zero offset.  The source calls it with
the second argument missing, modelled by an `Option` that is `none` at the
call site. -/
def getTransformDiff (region : IRegion) (otherRegions : Option (List IRegion)) : IPoint :=
  ⟨0, 0⟩

/-- `CanvasHelpers.transformPoints` (lines 103-105): empty body, returns
undefined. -/
def transformPoints (points : List IPoint) (transformDiff : IPoint) : Unit := ()

/-- `CanvasHelpers.transformBoundingBox` (lines 107-109): empty body, returns
undefined. -/
def transformBoundingBox (boundingBox : IBoundingBox) (transformDiff : IPoint) : Unit := ()

/-- `CanvasHelpers.transformRegion` (lines 111-117): computes the transform
diff, calls the two no-op transformers, and returns `null`. -/
def transformRegion (region : IRegion) (otherRegions : List IRegion) : Option IRegion :=
  let tranformDiff := getTransformDiff region none
  let _ := transformPoints region.points tranformDiff
  let _ := transformBoundingBox region.boundingBox tranformDiff
  none

/-- `CanvasHelpers.duplicateRegion` (lines 89-94): copies the region with a
fresh id (`shortid.generate()` modelled by the `newId` parameter). -/
def duplicateRegion (region : IRegion) (newId : String) : IRegion :=
  { region with id := newId }

/-- `CanvasHelpers.duplicateAndTransformRegion` (lines 82-87). -/
def duplicateAndTransformRegion (region : IRegion) (otherRegions : List IRegion)
    (newId : String) : Option IRegion :=
  transformRegion (duplicateRegion region newId) otherRegions

/-- Decidability of value well-formedness, so witnesses can be checked by
`decide`. -/
instance (v : FeatureValue) : Decidable v.wf :=
  match v with
  | .int64 xs =>
    inferInstanceAs (Decidable (xs.length < 2 ^ 32 ∧ ∀ x ∈ xs, -(2 ^ 63) ≤ x ∧ x < 2 ^ 63))
  | .float xs => inferInstanceAs (Decidable (xs.length < 2 ^ 32 ∧ ∀ x ∈ xs, x < 2 ^ 32))
  | .binary bs => inferInstanceAs (Decidable (bs.length < 2 ^ 32))

/-- Decidability of feature well-formedness. -/
instance (f : Feature) : Decidable f.wf :=
  inferInstanceAs (Decidable (f.name.length < 2 ^ 16 ∧ f.value.wf))

/-- Decidability of example well-formedness. -/
instance (e : List Feature) : Decidable (exampleWF e) :=
  inferInstanceAs (Decidable (e.length < 2 ^ 32 ∧ ∀ f ∈ e, f.wf))

deriving instance DecidableEq for Except

/-- A reader oracle answering every feature query with `Int64 [10]`. -/
def oracleConst : Nat → List Nat → FeatureType → Except TFError FeatureValue :=
  fun _ _ _ => .ok (.int64 [10])

/-- A reader oracle answering only the two dimension queries. -/
def oracleDims : Nat → List Nat → FeatureType → Except TFError FeatureValue :=
  fun _ n _ =>
    if n == strBytes ("image/width") then .ok (.int64 [10])
    else if n == strBytes ("image/height") then .ok (.int64 [10])
    else .error .featureNotFound

theorem natToLE_length (w : Nat) : ∀ n, (natToLE w n).length = w := by
  induction w with
  | zero => intro n; rfl
  | succ w ih => intro n; simp [natToLE, ih]

theorem leToNat_natToLE (w : Nat) : ∀ n, n < 256 ^ w → leToNat (natToLE w n) = n := by
  induction w with
  | zero =>
    intro n h
    simp [Nat.pow_zero] at h
    simp [h, natToLE, leToNat]
  | succ w ih =>
    intro n h
    have hdiv : n / 256 < 256 ^ w := by
      rw [Nat.div_lt_iff_lt_mul (by norm_num : 0 < 256)]
      calc n < 256 ^ (w + 1) := h
        _ = 256 ^ w * 256 := by rw [Nat.pow_succ]
    simp only [natToLE, leToNat, ih (n / 256) hdiv]
    exact Nat.mod_add_div n 256

theorem pow256_two : (256 : Nat) ^ 2 = 2 ^ 16 := by norm_num

theorem pow256_four : (256 : Nat) ^ 4 = 2 ^ 32 := by norm_num

theorem pow256_eight : (256 : Nat) ^ 8 = 2 ^ 64 := by norm_num

/-- Take of an append when the exact length of the left part is known. -/
theorem take_append_len {α : Type} (l r : List α) (k : Nat) (h : l.length = k) :
    (l ++ r).take k = l := by
  subst h
  induction l with
  | nil => simp
  | cons a l ih => simp [ih]

/-- Drop of an append when the exact length of the left part is known. -/
theorem drop_append_len {α : Type} (l r : List α) (k : Nat) (h : l.length = k) :
    (l ++ r).drop k = r := by
  subst h
  induction l with
  | nil => simp
  | cons a l ih => simp [ih]

theorem maskCrc_lt (c : Nat) : maskCrc c < 2 ^ 32 :=
  Nat.mod_lt _ (by norm_num)

theorem testBit_add_mul_pow (k a b j : Nat) (ha : a < 2 ^ k) :
    (a + b * 2 ^ k).testBit j = if j < k then a.testBit j else b.testBit (j - k) := by
  rcases Nat.lt_or_ge j k with hj | hj
  · rw [if_pos hj]
    have hdecomp : b * 2 ^ k = b * 2 ^ (k - j - 1) * 2 * 2 ^ j := by
      rw [Nat.mul_assoc, Nat.mul_assoc, ← Nat.pow_succ']
      rw [← Nat.pow_add]
      congr 2
      omega
    rw [Nat.testBit_to_div_mod, Nat.testBit_to_div_mod, hdecomp,
      Nat.add_mul_div_right _ _ (Nat.pos_pow_of_pos j (by norm_num))]
    rw [Nat.add_mul_mod_self_right]
  · rw [if_neg (by omega)]
    have h2k : (2 : Nat) ^ j = 2 ^ k * 2 ^ (j - k) := by
      rw [← Nat.pow_add]
      congr 1
      omega
    rw [Nat.testBit_to_div_mod, Nat.testBit_to_div_mod, h2k, ← Nat.div_div_eq_div_mul,
      Nat.mul_comm b (2 ^ k), Nat.add_mul_div_left _ _ (Nat.pos_pow_of_pos k (by norm_num)),
      Nat.div_eq_of_lt ha, Nat.zero_add]

theorem lor_of_lt (k a b : Nat) (ha : a < 2 ^ k) : a ||| b * 2 ^ k = a + b * 2 ^ k := by
  apply Nat.eq_of_testBit_eq
  intro j
  rw [Nat.testBit_lor, testBit_add_mul_pow k a b j ha]
  have hmul : b * 2 ^ k = 0 + b * 2 ^ k := by omega
  rw [hmul, testBit_add_mul_pow k 0 b j (Nat.pos_pow_of_pos k (by norm_num))]
  rcases Nat.lt_or_ge j k with hj | hj
  · simp [hj]
  · have ha' : a.testBit j = false :=
      Nat.testBit_lt_two_pow (lt_of_lt_of_le ha (Nat.pow_le_pow_right (by norm_num) hj))
    simp [ha', Nat.not_lt.mpr hj]

/-- The masking transform is exactly the arithmetic 15-bit rotation of the raw
32-bit CRC followed by addition of the fixed constant, modulo `2 ^ 32`. -/
theorem maskCrc_rotate (c : Nat) (hc : c < 2 ^ 32) :
    maskCrc c = (c / 2 ^ 15 + c % 2 ^ 15 * 2 ^ 17 + maskDelta) % 2 ^ 32 := by
  have hshr : c >>> 15 = c / 2 ^ 15 := Nat.shiftRight_eq_div_pow ..
  have hshl : c <<< 17 % 2 ^ 32 = c % 2 ^ 15 * 2 ^ 17 := by
    rw [Nat.shiftLeft_eq]
    have h32 : (2 : Nat) ^ 32 = 2 ^ 15 * 2 ^ 17 := by norm_num
    rw [h32, Nat.mul_mod_mul_right]
  have hdiv : c / 2 ^ 15 < 2 ^ 17 := by
    rw [Nat.div_lt_iff_lt_mul (Nat.pos_pow_of_pos 15 (by norm_num))]
    calc c < 2 ^ 32 := hc
      _ = 2 ^ 17 * 2 ^ 15 := by norm_num
  rw [maskCrc, hshr, hshl, lor_of_lt 17 (c / 2 ^ 15) (c % 2 ^ 15) hdiv]

theorem int64ToNat_lt (x : Int) : int64ToNat x < 2 ^ 64 := by
  unfold int64ToNat
  omega

theorem natToInt64_int64ToNat (x : Int) (hlo : -(2 ^ 63) ≤ x) (hhi : x < 2 ^ 63) :
    natToInt64 (int64ToNat x) = x := by
  unfold natToInt64 int64ToNat
  split <;> omega

theorem readLE_natToLE (w n : Nat) (rest : List Nat) (h : n < 256 ^ w) :
    readLE w (natToLE w n ++ rest) = some (n, rest) := by
  unfold readLE
  have hlen : (natToLE w n).length = w := natToLE_length w n
  rw [if_pos (by simp [hlen])]
  rw [take_append_len _ _ _ hlen, drop_append_len _ _ _ hlen, leToNat_natToLE w n h]

theorem readChunk_append (l rest : List Nat) :
    readChunk l.length (l ++ rest) = some (l, rest) := by
  unfold readChunk
  rw [if_pos (by simp)]
  rw [take_append_len _ _ _ rfl, drop_append_len _ _ _ rfl]

theorem decodeInt64s_encode (xs : List Int) :
    ∀ rest, (∀ x ∈ xs, -(2 ^ 63) ≤ x ∧ x < 2 ^ 63) →
    decodeInt64s xs.length (bytesConcat (xs.map fun x => natToLE 8 (int64ToNat x)) ++ rest) =
      some (xs, rest) := by
  induction xs with
  | nil => intro rest _; rfl
  | cons x xs ih =>
    intro rest hb
    have hx := hb x (List.mem_cons_self x xs)
    simp only [List.map_cons, bytesConcat, List.length_cons, List.append_assoc]
    rw [decodeInt64s]
    rw [readLE_natToLE 8 (int64ToNat x) _ (by rw [pow256_eight]; exact int64ToNat_lt x)]
    simp only [Option.bind_eq_bind, Option.some_bind]
    rw [ih rest (fun y hy => hb y (List.mem_cons_of_mem x hy))]
    simp [natToInt64_int64ToNat x hx.1 hx.2]

theorem decodeFloats_encode (xs : List Nat) :
    ∀ rest, (∀ x ∈ xs, x < 2 ^ 32) →
    decodeFloats xs.length (bytesConcat (xs.map fun x => natToLE 4 x) ++ rest) =
      some (xs, rest) := by
  induction xs with
  | nil => intro rest _; rfl
  | cons x xs ih =>
    intro rest hb
    have hx := hb x (List.mem_cons_self x xs)
    simp only [List.map_cons, bytesConcat, List.length_cons, List.append_assoc]
    rw [decodeFloats]
    rw [readLE_natToLE 4 x _ (by rw [pow256_four]; exact hx)]
    simp only [Option.bind_eq_bind, Option.some_bind]
    rw [ih rest (fun y hy => hb y (List.mem_cons_of_mem x hy))]
    rfl

theorem decodeValue_encode (v : FeatureValue) (rest : List Nat) (hv : v.wf) :
    decodeValue v.ftype (encodeValue v ++ rest) = some (v, rest) := by
  cases v with
  | int64 xs =>
    obtain ⟨hlen, hb⟩ := hv
    simp only [FeatureValue.ftype, encodeValue, decodeValue, List.append_assoc]
    rw [readLE_natToLE 4 xs.length _ (by rw [pow256_four]; exact hlen)]
    simp only [Option.bind_eq_bind, Option.some_bind]
    rw [decodeInt64s_encode xs rest hb]
    rfl
  | float xs =>
    obtain ⟨hlen, hb⟩ := hv
    simp only [FeatureValue.ftype, encodeValue, decodeValue, List.append_assoc]
    rw [readLE_natToLE 4 xs.length _ (by rw [pow256_four]; exact hlen)]
    simp only [Option.bind_eq_bind, Option.some_bind]
    rw [decodeFloats_encode xs rest hb]
    rfl
  | binary bs =>
    simp only [FeatureValue.ftype, encodeValue, decodeValue, List.append_assoc]
    rw [readLE_natToLE 4 bs.length _ (by rw [pow256_four]; exact hv)]
    simp only [Option.bind_eq_bind, Option.some_bind]
    rw [readChunk_append bs rest]
    rfl

theorem tagOfNat_typeTag (t : FeatureType) : tagOfNat (typeTag t) = some t := by
  cases t <;> rfl

theorem typeTag_lt (t : FeatureType) : typeTag t < 256 := by
  cases t <;> simp [typeTag]

theorem decodeFeature_encode (f : Feature) (rest : List Nat) (hf : f.wf) :
    decodeFeature (encodeFeature f ++ rest) = some (f, rest) := by
  obtain ⟨hname, hv⟩ := hf
  unfold decodeFeature encodeFeature
  simp only [List.append_assoc]
  rw [readLE_natToLE 2 f.name.length _ (by rw [pow256_two]; exact hname)]
  simp only [Option.bind_eq_bind, Option.some_bind]
  rw [readChunk_append f.name _]
  simp only [Option.some_bind]
  rw [readLE_natToLE 1 (typeTag f.value.ftype) _ (by simpa using typeTag_lt f.value.ftype)]
  simp only [Option.some_bind]
  rw [tagOfNat_typeTag f.value.ftype]
  simp only [Option.some_bind]
  rw [decodeValue_encode f.value rest hv]
  rfl

theorem decodeFeatures_encode (fs : List Feature) :
    ∀ rest, (∀ f ∈ fs, f.wf) →
    decodeFeatures fs.length (bytesConcat (fs.map encodeFeature) ++ rest) = some (fs, rest) := by
  induction fs with
  | nil => intro rest _; rfl
  | cons f fs ih =>
    intro rest hb
    simp only [List.map_cons, bytesConcat, List.length_cons, List.append_assoc]
    rw [decodeFeatures]
    rw [decodeFeature_encode f _ (hb f (List.mem_cons_self f fs))]
    simp only [Option.bind_eq_bind, Option.some_bind]
    rw [ih rest (fun g hg => hb g (List.mem_cons_of_mem f hg))]
    rfl

theorem decodeExampleRem_encode (e : List Feature) (rest : List Nat) (he : exampleWF e) :
    decodeExampleRem (encodeExample e ++ rest) = some (e, rest) := by
  obtain ⟨hlen, hb⟩ := he
  unfold decodeExampleRem encodeExample
  simp only [List.append_assoc]
  rw [readLE_natToLE 4 e.length _ (by rw [pow256_four]; exact hlen)]
  simp only [Option.bind_eq_bind, Option.some_bind]
  rw [decodeFeatures_encode e rest hb]

theorem decodeExample_encode (e : List Feature) (he : exampleWF e) :
    decodeExample (encodeExample e) = some e := by
  unfold decodeExample
  have h : decodeExampleRem (encodeExample e ++ []) = some (e, []) :=
    decodeExampleRem_encode e [] he
  rw [List.append_nil] at h
  rw [h]

theorem frame_length (p : List Nat) : (frame p).length = 16 + p.length := by
  simp [frame, natToLE_length]
  omega

theorem frameApp_take8 (p rest : List Nat) :
    (frame p ++ rest).take 8 = natToLE 8 p.length := by
  have h : frame p ++ rest =
      natToLE 8 p.length ++
        (natToLE 4 (maskedCrc (natToLE 8 p.length)) ++ (p ++ (natToLE 4 (maskedCrc p) ++ rest))) := by
    simp [frame, List.append_assoc]
  rw [h]
  exact take_append_len _ _ 8 (natToLE_length 8 _)

theorem frameApp_drop8_take4 (p rest : List Nat) :
    ((frame p ++ rest).drop 8).take 4 = natToLE 4 (maskedCrc (natToLE 8 p.length)) := by
  have h : frame p ++ rest =
      natToLE 8 p.length ++
        (natToLE 4 (maskedCrc (natToLE 8 p.length)) ++ (p ++ (natToLE 4 (maskedCrc p) ++ rest))) := by
    simp [frame, List.append_assoc]
  rw [h, drop_append_len _ _ 8 (natToLE_length 8 _)]
  exact take_append_len _ _ 4 (natToLE_length 4 _)

theorem frameApp_drop12_take (p rest : List Nat) :
    ((frame p ++ rest).drop 12).take p.length = p := by
  have h : frame p ++ rest =
      (natToLE 8 p.length ++ natToLE 4 (maskedCrc (natToLE 8 p.length))) ++
        (p ++ (natToLE 4 (maskedCrc p) ++ rest)) := by
    simp [frame, List.append_assoc]
  rw [h, drop_append_len _ _ 12 (by simp [natToLE_length])]
  exact take_append_len _ _ _ rfl

theorem frameApp_drop12len_take4 (p rest : List Nat) :
    ((frame p ++ rest).drop (12 + p.length)).take 4 = natToLE 4 (maskedCrc p) := by
  have h : frame p ++ rest =
      ((natToLE 8 p.length ++ natToLE 4 (maskedCrc (natToLE 8 p.length))) ++ p) ++
        (natToLE 4 (maskedCrc p) ++ rest) := by
    simp [frame, List.append_assoc]
  rw [h, drop_append_len _ _ (12 + p.length)
    (by simp only [List.length_append, natToLE_length])]
  exact take_append_len _ _ 4 (natToLE_length 4 _)

theorem frameApp_drop16len (p rest : List Nat) :
    (frame p ++ rest).drop (16 + p.length) = rest :=
  drop_append_len _ _ _ (frame_length p)

theorem maskedCrc_lt (bs : List Nat) : maskedCrc bs < 256 ^ 4 := by
  rw [pow256_four]
  exact maskCrc_lt (crc32 bs)

theorem headFrame_frame (p rest : List Nat) (hp : p.length < 2 ^ 64) :
    headFrame (frame p ++ rest) = some p.length := by
  have hlen : (frame p ++ rest).length = 16 + p.length + rest.length := by
    rw [List.length_append, frame_length]
  have hp' : p.length < 256 ^ 8 := by rw [pow256_eight]; exact hp
  unfold headFrame
  rw [if_pos (by omega)]
  simp only [frameApp_take8, frameApp_drop8_take4, leToNat_natToLE 8 p.length hp',
    leToNat_natToLE 4 _ (maskedCrc_lt (natToLE 8 p.length))]
  rw [if_true, if_pos (by omega)]
  simp only [frameApp_drop12len_take4, frameApp_drop12_take,
    leToNat_natToLE 4 _ (maskedCrc_lt p)]
  rw [if_true]

theorem indexAux_succ_frame (fuel off : Nat) (p rest : List Nat) (hp : p.length < 2 ^ 64) :
    indexAux (fuel + 1) (frame p ++ rest) off =
      (indexAux fuel rest (off + 16 + p.length)).push (off + 12, p.length) := by
  have hne : frame p ++ rest ≠ [] := by
    intro h
    have := congrArg List.length h
    rw [List.length_append, frame_length] at this
    simp at this
  obtain ⟨b, bs', hcons⟩ := List.exists_cons_of_ne_nil hne
  rw [hcons, indexAux, ← hcons, headFrame_frame p rest hp]
  show (indexAux fuel ((frame p ++ rest).drop (16 + p.length)) (off + 16 + p.length)).push
      (off + 12, p.length) = _
  rw [frameApp_drop16len]

theorem goodEntries_length (ps : List (List Nat)) : ∀ off, (goodEntries ps off).length = ps.length := by
  induction ps with
  | nil => intro off; rfl
  | cons p ps ih => intro off; simp [goodEntries, ih]

theorem frameAll_cons (p : List Nat) (ps : List (List Nat)) :
    frameAll (p :: ps) = frame p ++ frameAll ps := rfl

theorem frameAll_length (ps : List (List Nat)) : (frameAll ps).length =
    (ps.map fun p => 16 + p.length).sum := by
  induction ps with
  | nil => rfl
  | cons p ps ih => simp [frameAll_cons, frame_length, ih]

theorem indexAux_nil (fuel off : Nat) : indexAux fuel [] off = .ready [] := by
  cases fuel <;> rfl

theorem indexAux_frameAll (ps : List (List Nat)) :
    ∀ fuel off, (∀ p ∈ ps, p.length < 2 ^ 64) → (frameAll ps).length ≤ fuel →
    indexAux fuel (frameAll ps) off = .ready (goodEntries ps off) := by
  induction ps with
  | nil =>
    intro fuel off _ _
    exact indexAux_nil fuel off
  | cons p ps ih =>
    intro fuel off hb hfuel
    have hlen : (frameAll (p :: ps)).length = 16 + p.length + (frameAll ps).length := by
      rw [frameAll_cons, List.length_append, frame_length]
    cases fuel with
    | zero => omega
    | succ fuel =>
      rw [frameAll_cons, indexAux_succ_frame fuel off p (frameAll ps)
        (hb p (List.mem_cons_self p ps))]
      rw [ih fuel (off + 16 + p.length) (fun q hq => hb q (List.mem_cons_of_mem p hq))
        (by omega)]
      rfl

theorem indexAux_corrupt (junk : List Nat) (hne : junk ≠ []) (hbad : headFrame junk = none)
    (ps : List (List Nat)) :
    ∀ fuel off, (∀ p ∈ ps, p.length < 2 ^ 64) → (frameAll ps ++ junk).length ≤ fuel →
    indexAux fuel (frameAll ps ++ junk) off = .faulted (goodEntries ps off) := by
  induction ps with
  | nil =>
    intro fuel off _ hfuel
    obtain ⟨b, bs', hcons⟩ := List.exists_cons_of_ne_nil hne
    have hlen : 1 ≤ junk.length := by
      rw [hcons]
      simp
    simp only [frameAll, List.map_nil, bytesConcat, List.nil_append] at hfuel ⊢
    cases fuel with
    | zero => omega
    | succ fuel =>
      rw [hcons, indexAux, ← hcons, hbad]
      rfl
  | cons p ps ih =>
    intro fuel off hb hfuel
    have hlen : (frameAll (p :: ps) ++ junk).length =
        16 + p.length + (frameAll ps ++ junk).length := by
      simp only [frameAll_cons, List.append_assoc, List.length_append, frame_length]
    cases fuel with
    | zero => omega
    | succ fuel =>
      rw [frameAll_cons, List.append_assoc, indexAux_succ_frame fuel off p (frameAll ps ++ junk)
        (hb p (List.mem_cons_self p ps))]
      rw [ih fuel (off + 16 + p.length) (fun q hq => hb q (List.mem_cons_of_mem p hq))
        (by omega)]
      rfl

theorem goodEntries_lookup (ps : List (List Nat)) :
    ∀ (base rest : List Nat) (off i : Nat) (p : List Nat), off = base.length →
    ps[i]? = some p →
    ∃ o, (goodEntries ps off)[i]? = some (o, p.length) ∧
      ((base ++ (frameAll ps ++ rest)).drop o).take p.length = p := by
  induction ps with
  | nil =>
    intro base rest off i p _ hp
    simp at hp
  | cons q qs ih =>
    intro base rest off i p hoff hp
    cases i with
    | zero =>
      have hq : q = p := by
        simp at hp
        exact hp
      rw [← hq]
      refine ⟨off + 12, by simp [goodEntries], ?_⟩
      have hdd : (base ++ (frameAll (q :: qs) ++ rest)).drop (off + 12) =
          ((base ++ (frameAll (q :: qs) ++ rest)).drop off).drop 12 :=
        (List.drop_drop 12 off _).symm
      rw [hdd, drop_append_len base _ off hoff.symm, frameAll_cons, List.append_assoc]
      exact frameApp_drop12_take q (frameAll qs ++ rest)
    | succ i =>
      have hp' : qs[i]? = some p := by simpa using hp
      have hstream : base ++ (frameAll (q :: qs) ++ rest) =
          (base ++ frame q) ++ (frameAll qs ++ rest) := by
        rw [frameAll_cons]
        simp [List.append_assoc]
      have hoff' : off + 16 + q.length = (base ++ frame q).length := by
        rw [List.length_append, frame_length]
        omega
      obtain ⟨o, ho, haddr⟩ := ih (base ++ frame q) rest (off + 16 + q.length) i p hoff' hp'
      refine ⟨o, ?_, ?_⟩
      · simpa [goodEntries] using ho
      · rw [hstream]
        exact haddr

theorem indexRecords_frameAll (ps : List (List Nat)) (hps : ∀ p ∈ ps, p.length < 2 ^ 64) :
    indexRecords (frameAll ps) = .ready (goodEntries ps 0) :=
  indexAux_frameAll ps (frameAll ps).length 0 hps le_rfl

theorem frameAll_single (p : List Nat) : frameAll [p] = frame p := by
  simp [frameAll, bytesConcat]

theorem indexRecords_frame (p : List Nat) (hp : p.length < 2 ^ 64) :
    indexRecords (frame p) = .ready [(12, p.length)] := by
  rw [← frameAll_single p]
  rw [indexRecords_frameAll [p] (by intro q hq; rw [List.mem_singleton] at hq; rw [hq]; exact hp)]
  simp [goodEntries]

theorem frame_drop12_take (p : List Nat) : ((frame p).drop 12).take p.length = p := by
  have h := frameApp_drop12_take p []
  rwa [List.append_nil] at h

theorem exampleWF_nil : exampleWF [] := by
  constructor
  · norm_num
  · simp

/-- C10: `duplicateAndTransformRegion` always returns null — `transformRegion`
discards the computed transform and returns null unconditionally, so the
duplicated region produced by `duplicateRegion` is never returned to the
caller. -/
theorem c10_duplicateAndTransformRegion_null (region : IRegion)
    (otherRegions : List IRegion) (newId : String) :
    duplicateAndTransformRegion region otherRegions newId = none := rfl

/-- C9: for every asset type other than Image, Video and TFRecord,
`readAssetAttributes` throws `Asset not supported` irrespective of the three
attribute-reading oracles — so no byte of the asset is fetched or read, and
only those three types reach an attribute-reading path. -/
theorem c9_unsupported_asset_type (t : AssetType) (o1 o2 o3 : Except String AssetAttributes)
    (hni : t ≠ .image) (hnv : t ≠ .video) (hnt : t ≠ .tfrecord) :
    readAssetAttributes t o1 o2 o3 = .error ("Asset not supported") := by
  cases t with
  | image => exact absurd rfl hni
  | video => exact absurd rfl hnv
  | tfrecord => exact absurd rfl hnt
  | videoFrame => rfl
  | unknown => rfl

/-- Witness for C9 at the concrete asset type `videoFrame`. -/
theorem c9_witness :
    (AssetType.videoFrame ≠ AssetType.image) ∧ (AssetType.videoFrame ≠ AssetType.video) ∧
      (AssetType.videoFrame ≠ AssetType.tfrecord) ∧
      readAssetAttributes AssetType.videoFrame (.ok ⟨10, 20, none⟩) (.ok ⟨30, 40, some 5⟩)
        (.ok ⟨50, 60, none⟩) = .error ("Asset not supported") :=
  ⟨by decide, by decide, by decide,
    c9_unsupported_asset_type AssetType.videoFrame (.ok ⟨10, 20, none⟩) (.ok ⟨30, 40, some 5⟩)
      (.ok ⟨50, 60, none⟩) (by decide) (by decide) (by decide)⟩

/-- C7: `addFeature` with a value whose shape does not match the declared
type reports `TypeMismatch` synchronously and returns the accumulator exactly
as it was — nothing is added or replaced. -/
theorem c7_addFeature_mismatch_unchanged (b : TFRecordsBuilder) (name : List Nat)
    (t : FeatureType) (v : FeatureValue) (hmismatch : v.ftype ≠ t) :
    addFeature b name t v = (b, some .typeMismatch) := by
  unfold addFeature
  rw [if_neg hmismatch]

/-- Witness for C7: adding a Binary value declared as Int64 leaves the
accumulator untouched. -/
theorem c7_witness :
    ((FeatureValue.binary [1, 2]).ftype ≠ FeatureType.int64) ∧
      addFeature ⟨[⟨[97], .int64 [5]⟩]⟩ [98] .int64 (.binary [1, 2]) =
        (⟨[⟨[97], .int64 [5]⟩]⟩, some .typeMismatch) :=
  ⟨by decide, c7_addFeature_mismatch_unchanged ⟨[⟨[97], .int64 [5]⟩]⟩ [98] .int64
    (.binary [1, 2]) (by decide)⟩

/-- C4: `frame` emits exactly the 8-byte little-endian payload length, the
4-byte masked CRC-32 of those length bytes, the payload, and the 4-byte
masked CRC-32 of the payload; the mask rotates the raw CRC by 15 bits and
adds the fixed constant modulo `2 ^ 32`. -/
theorem c4_frame_wire_layout (p : List Nat) (hp : p.length < 2 ^ 64) :
    frame p = natToLE 8 p.length ++ natToLE 4 (maskCrc (crc32 (natToLE 8 p.length))) ++ p ++
        natToLE 4 (maskCrc (crc32 p)) ∧
    (natToLE 8 p.length).length = 8 ∧
    (natToLE 4 (maskCrc (crc32 (natToLE 8 p.length)))).length = 4 ∧
    (natToLE 4 (maskCrc (crc32 p))).length = 4 ∧
    leToNat (natToLE 8 p.length) = p.length ∧
    ∀ c, c < 2 ^ 32 → maskCrc c = (c / 2 ^ 15 + c % 2 ^ 15 * 2 ^ 17 + maskDelta) % 2 ^ 32 :=
  ⟨rfl, natToLE_length 8 _, natToLE_length 4 _, natToLE_length 4 _,
    leToNat_natToLE 8 p.length (by rw [pow256_eight]; exact hp), fun c hc => maskCrc_rotate c hc⟩

/-- Witness for C4 at the concrete payload `[7, 8, 9]` and CRC input `5`. -/
theorem c4_witness :
    (([7, 8, 9] : List Nat).length < 2 ^ 64) ∧
      frame [7, 8, 9] = natToLE 8 3 ++ natToLE 4 (maskCrc (crc32 (natToLE 8 3))) ++ [7, 8, 9] ++
          natToLE 4 (maskCrc (crc32 [7, 8, 9])) ∧
      maskCrc 5 = (5 / 2 ^ 15 + 5 % 2 ^ 15 * 2 ^ 17 + maskDelta) % 2 ^ 32 := by
  have h := c4_frame_wire_layout [7, 8, 9] (by decide)
  exact ⟨by decide, h.1, h.2.2.2.2.2 5 (by decide)⟩

/-- C3: indexing the stream obtained by framing a single payload succeeds
with exactly one index entry, and the payload bytes addressed by that entry
equal the original payload. -/
theorem c3_single_frame_roundtrip (p : List Nat) (hp : p.length < 2 ^ 64) :
    indexRecords (frame p) = .ready [(12, p.length)] ∧
    ((frame p).drop 12).take p.length = p :=
  ⟨indexRecords_frame p hp, frame_drop12_take p⟩

/-- Witness for C3 at the concrete payload `[7, 8]`. -/
theorem c3_witness :
    (([7, 8] : List Nat).length < 2 ^ 64) ∧
      indexRecords (frame [7, 8]) = .ready [(12, 2)] ∧
      ((frame [7, 8]).drop 12).take 2 = [7, 8] :=
  ⟨by decide, c3_single_frame_roundtrip [7, 8] (by decide)⟩

/-- C2: decoding the encoding of an Example (an ordered sequence of
name-unique, well-formed typed features) yields exactly the original
Example — same names, same types, same values, same insertion order. -/
theorem c2_example_roundtrip (e : List Feature) (hwf : exampleWF e)
    (hnodup : (e.map Feature.name).Nodup) :
    decodeExample (encodeExample e) = some e :=
  decodeExample_encode e hwf

/-- Witness for C2 on the spec's example `(a, Int64, [7]), (b, Binary, bytes)`. -/
theorem c2_witness :
    exampleWF [⟨strBytes ("a"), .int64 [7]⟩, ⟨strBytes ("b"), .binary [1, 2, 3]⟩] ∧
    (([⟨strBytes ("a"), .int64 [7]⟩, ⟨strBytes ("b"), .binary [1, 2, 3]⟩].map
      Feature.name).Nodup) ∧
    decodeExample (encodeExample
        [⟨strBytes ("a"), .int64 [7]⟩, ⟨strBytes ("b"), .binary [1, 2, 3]⟩]) =
      some [⟨strBytes ("a"), .int64 [7]⟩, ⟨strBytes ("b"), .binary [1, 2, 3]⟩] :=
  ⟨by decide, by decide, c2_example_roundtrip _ (by decide) (by decide)⟩

theorem mem_of_getElemOpt {α : Type} (l : List α) (i : Nat) (a : α) (h : l[i]? = some a) :
    a ∈ l := by
  obtain ⟨hlt, rfl⟩ := List.getElem?_eq_some.mp h
  exact List.getElem_mem hlt

theorem getFeature_oob (r : TFRecordsReader) (i : Nat) (name : List Nat) (t : FeatureType)
    (hentry : (recordEntries r.result)[i]? = none) :
    getFeature r i name t = .error .indexOutOfRange := by
  unfold getFeature
  rw [hentry]

theorem getFeature_cases (r : TFRecordsReader) (i : Nat) (name : List Nat) (t : FeatureType)
    (off len : Nat) (feats : List Feature)
    (hentry : (recordEntries r.result)[i]? = some (off, len))
    (hdec : decodeExample ((r.buffer.drop off).take len) = some feats) :
    getFeature r i name t = lookupResult feats name t := by
  unfold getFeature
  rw [hentry]
  show (match decodeExample ((r.buffer.drop off).take len) with
    | none => Except.error TFError.malformedExample
    | some feats => lookupResult feats name t) = _
  rw [hdec]

/-- C5: when the scan reaches a corrupt frame (bad length checksum, bad
payload checksum, or a length running past the end of the buffer — exactly
the cases in which `headFrame` rejects), indexing halts there: the reader's
index result is the terminal `faulted` state, it holds one entry per record
before the corrupt frame and none at or after it, and each of those entries
still addresses its original payload bytes. -/
theorem c5_corrupt_frame_fatal (ps : List (List Nat)) (junk : List Nat)
    (hps : ∀ p ∈ ps, p.length < 2 ^ 64) (hne : junk ≠ []) (hbad : headFrame junk = none) :
    (mkReader (frameAll ps ++ junk)).result = .faulted (goodEntries ps 0) ∧
    (goodEntries ps 0).length = ps.length ∧
    ∀ (i : Nat) (p : List Nat), ps[i]? = some p →
      ∃ o : Nat, (goodEntries ps 0)[i]? = some (o, p.length) ∧
        ((frameAll ps ++ junk).drop o).take p.length = p := by
  refine ⟨?_, goodEntries_length ps 0, ?_⟩
  · exact indexAux_corrupt junk hne hbad ps (frameAll ps ++ junk).length 0 hps le_rfl
  · intro i p hp
    have h := goodEntries_lookup ps [] junk 0 i p rfl hp
    simpa using h

/-- Witness for C5: one good record followed by three junk bytes. -/
theorem c5_witness :
    (∀ p ∈ [[7, 8]], List.length p < 2 ^ 64) ∧ (([1, 2, 3] : List Nat) ≠ []) ∧
      headFrame [1, 2, 3] = none ∧
      (mkReader (frameAll [[7, 8]] ++ [1, 2, 3])).result = .faulted (goodEntries [[7, 8]] 0) ∧
      (goodEntries [[7, 8]] 0).length = 1 ∧
      ∀ (i : Nat) (p : List Nat), (([[7, 8]] : List (List Nat)))[i]? = some p →
        ∃ o : Nat, (goodEntries [[7, 8]] 0)[i]? = some (o, p.length) ∧
          ((frameAll [[7, 8]] ++ [1, 2, 3]).drop o).take p.length = p := by
  have h := c5_corrupt_frame_fatal [[7, 8]] [1, 2, 3] (by decide) (by decide) (by decide)
  exact ⟨by decide, by decide, by decide, h.1, h.2.1, h.2.2⟩

/-- C8: the empty Example encodes to a payload that frames into one valid
record — the reader over that single frame counts exactly one record, and
every `getFeature` call against it fails with `FeatureNotFound` instead of
crashing during decode. -/
theorem c8_empty_example_valid :
    recordCount (mkReader (frame (encodeExample []))) = 1 ∧
    ∀ name t, getFeature (mkReader (frame (encodeExample []))) 0 name t =
      .error .featureNotFound := by
  have hidx : indexRecords (frame (encodeExample [])) =
      .ready [(12, (encodeExample []).length)] :=
    indexRecords_frame (encodeExample []) (by decide)
  constructor
  · rw [recordCount, mkReader, hidx]
    rfl
  · intro name t
    have hcases := getFeature_cases (mkReader (frame (encodeExample []))) 0 name t 12
      (encodeExample []).length []
      (by rw [mkReader, hidx]; rfl)
      (by
        show decodeExample (((frame (encodeExample [])).drop 12).take
          (encodeExample []).length) = some []
        rw [frame_drop12_take (encodeExample [])]
        exact decodeExample_encode [] exampleWF_nil)
    rw [hcases]
    rfl

/-- C6: `getFeature` bounds-checks the record index first
(`IndexOutOfRange`), then looks the feature up by name (`FeatureNotFound`
when no feature of that name exists), then compares the stored type tag with
the requested type (`TypeMismatch` on disagreement, never a silent
reinterpretation), and only otherwise returns the decoded value. -/
theorem c6_getFeature_error_ladder (exs : List (List Feature)) (i : Nat) (name : List Nat)
    (t : FeatureType) (hwf : ∀ e ∈ exs, exampleWF e)
    (hlen : ∀ e ∈ exs, (encodeExample e).length < 2 ^ 64) :
    (exs.length ≤ i →
      getFeature (mkReader (frameAll (exs.map encodeExample))) i name t =
        .error .indexOutOfRange) ∧
    ∀ e : List Feature, exs[i]? = some e →
      ((∀ f ∈ e, f.name ≠ name) →
        getFeature (mkReader (frameAll (exs.map encodeExample))) i name t =
          .error .featureNotFound) ∧
      ∀ f : Feature, e.find? (fun g => g.name == name) = some f →
        (f.value.ftype ≠ t →
          getFeature (mkReader (frameAll (exs.map encodeExample))) i name t =
            .error .typeMismatch) ∧
        (f.value.ftype = t →
          getFeature (mkReader (frameAll (exs.map encodeExample))) i name t =
            .ok f.value) := by
  have hps : ∀ p ∈ exs.map encodeExample, p.length < 2 ^ 64 := by
    intro p hp
    obtain ⟨e, he, rfl⟩ := List.mem_map.mp hp
    exact hlen e he
  have hidx : indexRecords (frameAll (exs.map encodeExample)) =
      .ready (goodEntries (exs.map encodeExample) 0) := indexRecords_frameAll _ hps
  have hentries : recordEntries (mkReader (frameAll (exs.map encodeExample))).result =
      goodEntries (exs.map encodeExample) 0 := by
    rw [mkReader, hidx]
    rfl
  constructor
  · intro hge
    apply getFeature_oob
    rw [hentries]
    apply List.getElem?_eq_none
    rw [goodEntries_length, List.length_map]
    exact hge
  · intro e he
    have hmem : e ∈ exs := mem_of_getElemOpt exs i e he
    have hpse : (exs.map encodeExample)[i]? = some (encodeExample e) := by
      rw [List.getElem?_map, he]
      rfl
    obtain ⟨o, ho, haddr⟩ := goodEntries_lookup (exs.map encodeExample) [] [] 0 i
      (encodeExample e) rfl hpse
    rw [List.nil_append, List.append_nil] at haddr
    have hcases := getFeature_cases (mkReader (frameAll (exs.map encodeExample))) i name t
      o (encodeExample e).length e (by rw [hentries]; exact ho)
      (by
        show decodeExample (((frameAll (exs.map encodeExample)).drop o).take
          (encodeExample e).length) = some e
        rw [haddr]
        exact decodeExample_encode e (hwf e hmem))
    constructor
    · intro hnofeat
      rw [hcases]
      have hfind : e.find? (fun f => f.name == name) = none := by
        rw [List.find?_eq_none]
        intro f hf
        simpa using hnofeat f hf
      rw [lookupResult, hfind]
    · intro f hfind
      rw [hcases]
      unfold lookupResult
      rw [hfind]
      constructor
      · intro hne
        show (if f.value.ftype = t then Except.ok f.value
          else Except.error TFError.typeMismatch) = _
        rw [if_neg hne]
      · intro heq
        show (if f.value.ftype = t then Except.ok f.value
          else Except.error TFError.typeMismatch) = _
        rw [if_pos heq]

/-- Witness for C6: a single record holding one feature named `a` stored as
Binary, queried as Int64. -/
theorem c6_witness :
    (∀ e ∈ [[(⟨[97], .binary [1, 2]⟩ : Feature)]], exampleWF e) ∧
    (∀ e ∈ [[(⟨[97], .binary [1, 2]⟩ : Feature)]], (encodeExample e).length < 2 ^ 64) ∧
    ((([[(⟨[97], .binary [1, 2]⟩ : Feature)]] : List (List Feature)).length ≤ 3 →
      getFeature (mkReader (frameAll ([[(⟨[97], .binary [1, 2]⟩ : Feature)]].map
        encodeExample))) 3 [97] .int64 = .error .indexOutOfRange) ∧
    ∀ e : List Feature, ([[(⟨[97], .binary [1, 2]⟩ : Feature)]] : List (List Feature))[3]? =
        some e →
      ((∀ f ∈ e, f.name ≠ [97]) →
        getFeature (mkReader (frameAll ([[(⟨[97], .binary [1, 2]⟩ : Feature)]].map
          encodeExample))) 3 [97] .int64 = .error .featureNotFound) ∧
      ∀ f : Feature, e.find? (fun g => g.name == [97]) = some f →
        (f.value.ftype ≠ .int64 →
          getFeature (mkReader (frameAll ([[(⟨[97], .binary [1, 2]⟩ : Feature)]].map
            encodeExample))) 3 [97] .int64 = .error .typeMismatch) ∧
        (f.value.ftype = .int64 →
          getFeature (mkReader (frameAll ([[(⟨[97], .binary [1, 2]⟩ : Feature)]].map
            encodeExample))) 3 [97] .int64 = .ok f.value)) :=
  ⟨by decide, by decide,
    c6_getFeature_error_ladder [[(⟨[97], .binary [1, 2]⟩ : Feature)]] 3 [97] .int64
      (by decide) (by decide)⟩

theorem rtaWith_ok (g : Nat → List Nat → FeatureType → Except TFError FeatureValue)
    (a b : FeatureValue)
    (hw : g 0 (strBytes ("image/width")) .int64 = .ok a)
    (hh : g 0 (strBytes ("image/height")) .int64 = .ok b) :
    readTFRecordAttributesWith g = .ok (a, b) := by
  unfold readTFRecordAttributesWith
  rw [hw, hh]
  rfl

theorem rtaWith_err_w (g : Nat → List Nat → FeatureType → Except TFError FeatureValue)
    (e : TFError) (hw : g 0 (strBytes ("image/width")) .int64 = .error e) :
    readTFRecordAttributesWith g = .error e := by
  unfold readTFRecordAttributesWith
  rw [hw]
  rfl

theorem rtaWith_err_h (g : Nat → List Nat → FeatureType → Except TFError FeatureValue)
    (a : FeatureValue) (e : TFError)
    (hw : g 0 (strBytes ("image/width")) .int64 = .ok a)
    (hh : g 0 (strBytes ("image/height")) .int64 = .error e) :
    readTFRecordAttributesWith g = .error e := by
  unfold readTFRecordAttributesWith
  rw [hw, hh]
  rfl

/-- C1: `readTFRecordAttributes` downloads the complete byte stream, builds
one reader over it, and queries exactly `getFeature(0, image/width, Int64)`
and `getFeature(0, image/height, Int64)`: its outcome depends only on the
reader's answers at those two query points (so the full encoded image feature
is never decoded), and a successful result returns precisely those two
feature values as the width and the height. -/
theorem c1_readTFRecordAttributes_dims
    (g g' : Nat → List Nat → FeatureType → Except TFError FeatureValue)
    (hw : g 0 (strBytes ("image/width")) .int64 = g' 0 (strBytes ("image/width")) .int64)
    (hh : g 0 (strBytes ("image/height")) .int64 = g' 0 (strBytes ("image/height")) .int64) :
    readTFRecordAttributesWith g = readTFRecordAttributesWith g' ∧
    ∀ (fetched : List Nat) (w h : FeatureValue),
      readTFRecordAttributes fetched = .ok (w, h) ↔
        getFeature (mkReader fetched) 0 (strBytes ("image/width")) .int64 = .ok w ∧
        getFeature (mkReader fetched) 0 (strBytes ("image/height")) .int64 = .ok h := by
  constructor
  · unfold readTFRecordAttributesWith
    rw [hw, hh]
  · intro fetched w h
    constructor
    · intro hok
      unfold readTFRecordAttributes at hok
      cases hga : getFeature (mkReader fetched) 0 (strBytes ("image/width")) .int64 with
      | error e =>
        rw [rtaWith_err_w _ e hga] at hok
        exact absurd hok (by simp)
      | ok a =>
        cases hgb : getFeature (mkReader fetched) 0 (strBytes ("image/height")) .int64 with
        | error e =>
          rw [rtaWith_err_h _ a e hga hgb] at hok
          exact absurd hok (by simp)
        | ok b =>
          rw [rtaWith_ok _ a b hga hgb] at hok
          have hab : a = w ∧ b = h := by
            simpa using hok
          exact ⟨by rw [hab.1], by rw [hab.2]⟩
    · rintro ⟨hw2, hh2⟩
      unfold readTFRecordAttributes
      exact rtaWith_ok _ w h hw2 hh2

/-- Witness for C1: two oracles that agree only on the two dimension queries
produce identical attribute results. -/
theorem c1_witness :
    (oracleConst 0 (strBytes ("image/width")) .int64 =
      oracleDims 0 (strBytes ("image/width")) .int64) ∧
    (oracleConst 0 (strBytes ("image/height")) .int64 =
      oracleDims 0 (strBytes ("image/height")) .int64) ∧
    (readTFRecordAttributesWith oracleConst = readTFRecordAttributesWith oracleDims ∧
      ∀ (fetched : List Nat) (w h : FeatureValue),
        readTFRecordAttributes fetched = .ok (w, h) ↔
          getFeature (mkReader fetched) 0 (strBytes ("image/width")) .int64 = .ok w ∧
          getFeature (mkReader fetched) 0 (strBytes ("image/height")) .int64 = .ok h) :=
  ⟨by decide, by decide,
    c1_readTFRecordAttributes_dims oracleConst oracleDims (by decide) (by decide)⟩
